import Mathlib

/-!
Verification development for the warehouse repository.

The first part embeds the order endpoints of src/app.py (a FastAPI service
backed by a Redis hash per order plus a Redis list per order history) as
pure Lean functions over an explicit store.  Timestamps are modelled by a
logical clock: each call of the source's get_timestamp() draws the current
clock value and advances it, which preserves exactly the information the
claims need (which fields are written, with fresh values, and in what
order).  Redis hashes keyed by order id are modelled as an association
list; the per-order history list (written with LPUSH and read back
reversed, i.e. chronologically) is kept inside the order record, which is
faithful because src/app.py creates and deletes the two keys together.

The second part models, from the specification, the components of the
state-machine warehouse service (workflow graph, permission table, task
queue, transition coordinator) whose server implementation is not part of
the sources; only its HTTP clients and tests are.
-/

namespace Warehouse

/-! Items are persisted as one comma-joined string (src/app.py line 654)
and split on commas when read back (line 190).  We model Python's
",".join and .split(",") explicitly on character lists. -/

/-- Model of Python ",".join on character lists. -/
def joinChars : List (List Char) → List Char
  | [] => []
  | [x] => x
  | x :: y :: ys => x ++ ',' :: joinChars (y :: ys)

/-- Model of Python .split(",") on character lists: splits at every comma,
never collapsing, so the result is always nonempty. -/
def splitChars : List Char → List (List Char)
  | [] => [[]]
  | c :: rest =>
    let r := splitChars rest
    if c = ',' then [] :: r
    else (c :: r.headD []) :: r.tail

/-- The stored form of an items list: src/app.py line 654. -/
def joinItems (items : List String) : String :=
  ⟨joinChars (items.map String.data)⟩

/-- The read-back form: src/app.py line 190, including the Python
truthiness guard that turns the empty stored string into the empty list. -/
def splitItems (s : String) : List String :=
  if s.data.isEmpty then [] else (splitChars s.data).map (fun l => ⟨l⟩)

/-- One entry of an order's status history (OrderStatusHistory model). -/
structure HistEntry where
  status : String
  timestamp : Nat
  notes : Option String
deriving DecidableEq

/-- The Redis hash order:{id} of src/app.py, together with the history
list order_history:{id} (chronological, oldest first). -/
structure OrderRec where
  order_id : Nat
  customer_name : String
  items : String
  status : String
  notes : String
  created_at : Nat
  updated_at : Nat
  placed_at : Option Nat
  confirmed_at : Option Nat
  picked_at : Option Nat
  packed_at : Option Nat
  shipped_at : Option Nat
  delivered_at : Option Nat
  cancelled_at : Option Nat
  history : List HistEntry
deriving DecidableEq

/-- Association-list lookup, modelling HGETALL on key order:{id}
(EXISTS is lookup being some). -/
def alookup {α : Type} : List (Nat × α) → Nat → Option α
  | [], _ => none
  | (k, v) :: rest, key => if k = key then some v else alookup rest key

/-- Replace the record stored under a key, modelling HSET on an existing
key; keys that are absent stay absent. -/
def aset {α : Type} : List (Nat × α) → Nat → α → List (Nat × α)
  | [], _, _ => []
  | (k, w) :: rest, key, v =>
    if k = key then (key, v) :: aset rest key v else (k, w) :: aset rest key v

/-- Remove the record stored under a key, modelling DEL. -/
def aremove {α : Type} : List (Nat × α) → Nat → List (Nat × α)
  | [], _ => []
  | (k, w) :: rest, key =>
    if k = key then aremove rest key else (k, w) :: aremove rest key

/-- The whole Redis database slice used by the order endpoints. -/
structure Store where
  next_order_id : Nat
  orders : List (Nat × OrderRec)
  clock : Nat
deriving DecidableEq

def Store.empty : Store := ⟨0, [], 0⟩

def Store.lookup (s : Store) (oid : Nat) : Option OrderRec :=
  alookup s.orders oid

def Store.set (s : Store) (oid : Nat) (o : OrderRec) : Store :=
  { s with orders := aset s.orders oid o }

/-- Advance the logical clock by the number of get_timestamp calls the
operation made. -/
def Store.advanceClock (s : Store) (n : Nat) : Store :=
  { s with clock := s.clock + n }

/-- POST /orders (src/app.py lines 645-668): INCR order_id, write the hash
with status "pending" and created_at = updated_at = placed_at = now, then
append the initial "pending" history entry (a second get_timestamp call). -/
def new_order_record (s : Store) (customer_name : String) (items : List String)
    (notes : Option String) : OrderRec :=
  { order_id := s.next_order_id + 1
    customer_name := customer_name
    items := joinItems items
    status := "pending"
    notes := notes.getD ""
    created_at := s.clock
    updated_at := s.clock
    placed_at := some s.clock
    confirmed_at := none
    picked_at := none
    packed_at := none
    shipped_at := none
    delivered_at := none
    cancelled_at := none
    history := [⟨"pending", s.clock + 1, some "Order created"⟩] }

def create_order (s : Store) (customer_name : String) (items : List String)
    (notes : Option String) : Store × Nat :=
  ({ next_order_id := s.next_order_id + 1
     orders := s.orders ++ [(s.next_order_id + 1, new_order_record s customer_name items notes)]
     clock := s.clock + 2 }, s.next_order_id + 1)

/-- update_fulfillment_timestamp (src/app.py lines 160-180): map the status
to its per-status timestamp field; unknown statuses write nothing. -/
def update_fulfillment_field (o : OrderRec) (status : String) (t : Nat) : OrderRec :=
  if status = "pending" then { o with placed_at := some t }
  else if status = "confirmed" then { o with confirmed_at := some t }
  else if status = "picking" then { o with picked_at := some t }
  else if status = "packed" then { o with packed_at := some t }
  else if status = "shipped" then { o with shipped_at := some t }
  else if status = "delivered" then { o with delivered_at := some t }
  else if status = "cancelled" then { o with cancelled_at := some t }
  else o

/-- The OrderUpdate request body of PATCH /orders/{id}. -/
structure OrderUpdate where
  customer_name : Option String := none
  items : Option (List String) := none
  status : Option String := none
  notes : Option String := none
deriving DecidableEq

/-- The three unconditional field writes of PATCH /orders/{id}
(src/app.py lines 699-704): customer_name, the comma-joined items string,
and notes, each only when supplied. -/
def apply_basic_fields (o : OrderRec) (upd : OrderUpdate) : OrderRec :=
  let o1 := match upd.customer_name with
    | some n => { o with customer_name := n }
    | none => o
  let o2 := match upd.items with
    | some its => { o1 with items := joinItems its }
    | none => o1
  match upd.notes with
  | some n => { o2 with notes := n }
  | none => o2

/-- The history note of a status change through PATCH /orders/{id}
(src/app.py lines 714-716), including the Python truthiness test on the
supplied notes. -/
def status_change_note (old new : String) (notes : Option String) : String :=
  let base := "Status changed from " ++ old ++ " to " ++ new
  match notes with
  | some n => if n = "" then base else base ++ " - " ++ n
  | none => base

/-- PATCH /orders/{id} (src/app.py lines 688-722).  A missing order raises
404 before any write, modelled by returning the store unchanged.  The
status is written, the per-status timestamp updated and a history entry
appended only when a status is supplied that differs from the current one;
updated_at is always rewritten with a fresh timestamp at the end. -/
def update_order (s : Store) (oid : Nat) (upd : OrderUpdate) : Store :=
  match s.lookup oid with
  | none => s
  | some o0 =>
    let o3 := apply_basic_fields o0 upd
    match upd.status with
    | some st =>
      if st = o0.status then
        (s.set oid { o3 with updated_at := s.clock }).advanceClock 1
      else
        let o4 := { o3 with status := st }
        let o5 := update_fulfillment_field o4 st s.clock
        let o6 := { o5 with history := o5.history ++
          [(⟨st, s.clock + 1, some (status_change_note o0.status st upd.notes)⟩ : HistEntry)] }
        (s.set oid { o6 with updated_at := s.clock + 2 }).advanceClock 3
    | none =>
      (s.set oid { o3 with updated_at := s.clock }).advanceClock 1

/-- The forward workflow of POST /orders/{id}/advance (src/app.py
lines 750-756). -/
def workflow_next (st : String) : Option String :=
  if st = "pending" then some "confirmed"
  else if st = "confirmed" then some "picking"
  else if st = "picking" then some "packed"
  else if st = "packed" then some "shipped"
  else if st = "shipped" then some "delivered"
  else none

/-- The history note of POST /orders/{id}/advance (src/app.py
lines 769-771), including the Python truthiness test on the notes. -/
def advance_note (nxt : String) (notes : Option String) : String :=
  let base := "Order advanced to " ++ nxt
  match notes with
  | some n => if n = "" then base else base ++ " - " ++ n
  | none => base

/-- POST /orders/{id}/advance (src/app.py lines 739-774): 404 when the
order is missing, 400 when the current status has no successor, both
before any write; otherwise set the next status, rewrite updated_at,
write the per-status timestamp and append a history entry. -/
def advance_order_status (s : Store) (oid : Nat) (notes : Option String) : Store :=
  match s.lookup oid with
  | none => s
  | some o0 =>
    match workflow_next o0.status with
    | none => s
    | some nxt =>
      let o1 := { o0 with status := nxt, updated_at := s.clock }
      let o2 := update_fulfillment_field o1 nxt (s.clock + 1)
      let o3 := { o2 with history := o2.history ++
        [(⟨nxt, s.clock + 2, some (advance_note nxt notes)⟩ : HistEntry)] }
      (s.set oid o3).advanceClock 3

/-- DELETE /orders/{id} (src/app.py lines 724-736): appends a "cancelled"
history entry (one get_timestamp call) and then deletes both the order
hash and the history list, so the net effect on the store is removal. -/
def delete_order (s : Store) (oid : Nat) : Store :=
  match s.lookup oid with
  | none => s
  | some _ =>
    { s with orders := aremove s.orders oid, clock := s.clock + 1 }

/-- The OrderOut response model of src/app.py. -/
structure OrderOut where
  order_id : Nat
  customer_name : String
  items : List String
  status : String
  notes : String
  created_at : Nat
  updated_at : Nat
  status_history : List HistEntry
  placed_at : Option Nat
  confirmed_at : Option Nat
  picked_at : Option Nat
  packed_at : Option Nat
  shipped_at : Option Nat
  delivered_at : Option Nat
  cancelled_at : Option Nat
deriving DecidableEq

/-- get_order_response (src/app.py lines 182-203): the stored items string
is split back into a list on read. -/
def get_order_response (o : OrderRec) : OrderOut :=
  { order_id := o.order_id
    customer_name := o.customer_name
    items := splitItems o.items
    status := o.status
    notes := o.notes
    created_at := o.created_at
    updated_at := o.updated_at
    status_history := o.history
    placed_at := o.placed_at
    confirmed_at := o.confirmed_at
    picked_at := o.picked_at
    packed_at := o.packed_at
    shipped_at := o.shipped_at
    delivered_at := o.delivered_at
    cancelled_at := o.cancelled_at }

/-- GET /orders/{id} (src/app.py lines 670-676). -/
def get_order (s : Store) (oid : Nat) : Option OrderOut :=
  (s.lookup oid).map get_order_response

/-- Insertion into a sorted list of ids, modelling Python sorted(). -/
def insertSorted (n : Nat) : List Nat → List Nat
  | [] => [n]
  | m :: ms => if n ≤ m then n :: m :: ms else m :: insertSorted n ms

def sortNat (l : List Nat) : List Nat := l.foldr insertSorted []

/-- GET /orders (src/app.py lines 678-686): sort the member ids, read each
hash, keep the ones that exist.  The route takes no parameters. -/
def list_orders (s : Store) : List OrderOut :=
  (sortNat (s.orders.map Prod.fst)).filterMap (fun oid => get_order s oid)

/-- GET /orders invoked with a limit query parameter, as
warehouse_client.list_orders does: the src/app.py route declares no such
parameter, so FastAPI drops it and the full listing is returned. -/
def list_orders_with_limit (s : Store) (_limit : Nat) : List OrderOut :=
  list_orders s

/-- The public mutating operations of the order API. -/
inductive Op where
  | create (customer_name : String) (items : List String) (notes : Option String)
  | update (oid : Nat) (upd : OrderUpdate)
  | advance (oid : Nat) (notes : Option String)
  | delete (oid : Nat)
deriving DecidableEq

def applyOp (s : Store) : Op → Store
  | .create n its nts => (create_order s n its nts).1
  | .update oid upd => update_order s oid upd
  | .advance oid nts => advance_order_status s oid nts
  | .delete oid => delete_order s oid

/-- Run a sequence of public operations from the empty store. -/
def runOps (ops : List Op) : Store := ops.foldl applyOp Store.empty

/-! The state-machine warehouse service.  Its server implementation is not
among the sources; src/warehouse_client.py, src/test_warehouse_client.py
and src/warehouse_simulation.py are its clients and tests.  The
definitions below are modelled from the specification (sections 4.1-4.5),
with the transition names taken from the client code. -/

/-- Modelled from the spec: the Workflow Graph edge table of section 4.1,
as (transition name, source state, destination state), with the disjoint
transition names used by warehouse_client.py. -/
def declaredEdges : List (String × String × String) :=
  [("confirm", "pending", "confirmed"),
   ("start_picking", "confirmed", "picking"),
   ("pack", "picking", "packed"),
   ("ship", "packed", "shipped"),
   ("deliver", "shipped", "delivered"),
   ("cancel_from_pending", "pending", "cancelled"),
   ("cancel_from_confirmed", "confirmed", "cancelled"),
   ("cancel_from_picking", "picking", "cancelled"),
   ("cancel_from_packed", "packed", "cancelled"),
   ("return_order", "delivered", "returned"),
   ("halt_from_pending", "pending", "halted"),
   ("halt_from_confirmed", "confirmed", "halted"),
   ("halt_from_picking", "picking", "halted"),
   ("halt_from_packed", "packed", "halted"),
   ("resume_to_pending", "halted", "pending"),
   ("resume_to_confirmed", "halted", "confirmed"),
   ("resume_to_picking", "halted", "picking"),
   ("resume_to_packed", "halted", "packed")]

/-- Whether (src, dst) is a declared edge of the Workflow Graph. -/
def isDeclaredEdge (src dst : String) : Bool :=
  declaredEdges.any (fun e => e.2.1 == src && e.2.2 == dst)

/-- Whether a list of states walks only declared edges. -/
def chainOk : List String → Bool
  | [] => true
  | [_] => true
  | a :: b :: rest => isDeclaredEdge a b && chainOk (b :: rest)

/-- The states of an order's history, oldest first. -/
def historyStates (o : OrderRec) : List String :=
  o.history.map HistEntry.status

/-- Modelled from the spec: the error taxonomy of section 7. -/
inductive WErr where
  | NotFound
  | Unauthorized
  | InvalidTransition
  | Conflict
deriving DecidableEq

instance {ε α : Type} [DecidableEq ε] [DecidableEq α] : DecidableEq (Except ε α) :=
  fun a b =>
    match a, b with
    | .error e, .error f =>
      if h : e = f then isTrue (by rw [h])
      else isFalse (fun hh => h (by cases hh; rfl))
    | .ok x, .ok y =>
      if h : x = y then isTrue (by rw [h])
      else isFalse (fun hh => h (by cases hh; rfl))
    | .error _, .ok _ => isFalse (fun hh => Except.noConfusion hh)
    | .ok _, .error _ => isFalse (fun hh => Except.noConfusion hh)

/-- Modelled from the spec: the pure apply(state, transitionName) function
of section 4.1; InvalidTransition when the name is unknown or the edge is
not outgoing from the state. -/
def applyTransition (state tname : String) : Except WErr String :=
  match declaredEdges.find? (fun e => e.1 == tname) with
  | none => .error .InvalidTransition
  | some e => if e.2.1 == state then .ok e.2.2 else .error .InvalidTransition

/-- Modelled from the spec: the closed role enumeration of section 3. -/
inductive Role where
  | customer
  | fulfillment
deriving DecidableEq

/-- Modelled from the spec: the Permission Table of section 4.2
(customer-only: cancel and return; fulfillment-only: forward, halt,
resume). -/
def permittedRoles (tname : String) : List Role :=
  if tname == "cancel_from_pending" || tname == "cancel_from_confirmed"
      || tname == "cancel_from_picking" || tname == "cancel_from_packed"
      || tname == "return_order" then [.customer]
  else if (declaredEdges.find? (fun e => e.1 == tname)).isSome then [.fulfillment]
  else []

/-- Modelled from the spec: isPermitted(role, transitionName) of section 4.2. -/
def isPermitted (role : Role) (tname : String) : Bool :=
  (permittedRoles tname).contains role

/-- Modelled from the spec: the Task record of section 3. -/
structure Task where
  task_id : Nat
  order_id : Nat
  transition : String
  role : Role
  agent : Option String
  created_at : Nat
  notes : Option String
deriving DecidableEq

/-- Modelled from the spec: the Task Queue of section 4.4 — one FIFO per
role (head = oldest) plus one leased-claim record per agent identifier. -/
structure QueueState where
  customerQ : List Task
  fulfillmentQ : List Task
  claims : List (String × Task)
  next_task_id : Nat
deriving DecidableEq

def QueueState.empty : QueueState := ⟨[], [], [], 0⟩

def getQ (q : QueueState) : Role → List Task
  | .customer => q.customerQ
  | .fulfillment => q.fulfillmentQ

def setQ (q : QueueState) : Role → List Task → QueueState
  | .customer, l => { q with customerQ := l }
  | .fulfillment, l => { q with fulfillmentQ := l }

def lookupClaim : List (String × Task) → String → Option Task
  | [], _ => none
  | (b, t) :: rest, a => if b = a then some t else lookupClaim rest a

def removeClaim : List (String × Task) → String → List (String × Task)
  | [], _ => []
  | (b, t) :: rest, a =>
    if b = a then removeClaim rest a else (b, t) :: removeClaim rest a

/-- Modelled from the spec: enqueue appends a fresh Task at the tail of
the role's FIFO and returns its fresh identifier. -/
def enqueueTask (q : QueueState) (oid : Nat) (tname : String) (role : Role)
    (agent : Option String) (now : Nat) (notes : Option String) : QueueState × Nat :=
  let tid := q.next_task_id + 1
  let task : Task := ⟨tid, oid, tname, role, agent, now, notes⟩
  (setQ { q with next_task_id := tid } role (getQ q role ++ [task]), tid)

/-- Modelled from the spec: claimNext atomically pops the oldest queued
Task of the role and records it as the agent's active claim (the store
executes the pop and the claim write as one scripted step, so the whole
transfer is a single transition here); an empty queue returns none with no
mutation.  A new claim replaces any previous claim record of the same
agent, as a keyed store write does. -/
def claimNext (q : QueueState) (a : String) (role : Role) : QueueState × Option Task :=
  match getQ q role with
  | [] => (q, none)
  | task :: rest =>
    let q1 := setQ q role rest
    ({ q1 with claims := (a, task) :: removeClaim q1.claims a }, some task)

/-- Modelled from the spec: complete requires an active claim of the agent
whose Task identifier matches, and removes the claim record; mismatch or
absent claim is an error with no mutation and no requeue. -/
def completeTask (q : QueueState) (a : String) (tid : Nat) : QueueState × Bool :=
  match lookupClaim q.claims a with
  | some t =>
    if t.task_id = tid then ({ q with claims := removeClaim q.claims a }, true)
    else (q, false)
  | none => (q, false)

/-- Modelled from the spec: release atomically removes the agent's active
claim, if any, and re-appends that Task at the tail of the role's queue. -/
def releaseTask (q : QueueState) (a : String) (role : Role) : QueueState × Bool :=
  match lookupClaim q.claims a with
  | some t =>
    (setQ { q with claims := removeClaim q.claims a } role (getQ q role ++ [t]), true)
  | none => (q, false)

/-- Modelled from the spec: lease expiry removes the claim record by the
store's own per-key expiry without returning the Task to its queue (the
Task is lost, as section 3 and the section 9 open question require). -/
def expireLease (q : QueueState) (a : String) : QueueState :=
  { q with claims := removeClaim q.claims a }

/-- The operations any caller can issue against the Task Queue. -/
inductive QOp where
  | enq (oid : Nat) (tname : String) (role : Role) (agent : Option String)
      (now : Nat) (notes : Option String)
  | claim (a : String) (role : Role)
  | comp (a : String) (tid : Nat)
  | rel (a : String) (role : Role)
  | expire (a : String)
deriving DecidableEq

def applyQOp (q : QueueState) : QOp → QueueState
  | .enq oid tname role agent now notes => (enqueueTask q oid tname role agent now notes).1
  | .claim a role => (claimNext q a role).1
  | .comp a tid => (completeTask q a tid).1
  | .rel a role => (releaseTask q a role).1
  | .expire a => expireLease q a

def runQ (ops : List QOp) : QueueState := ops.foldl applyQOp QueueState.empty

/-- All task identifiers present anywhere in the queue system: queued in
either FIFO or held by a claim record. -/
def allTaskIds (q : QueueState) : List Nat :=
  q.customerQ.map Task.task_id ++ q.fulfillmentQ.map Task.task_id
    ++ q.claims.map (fun c => c.2.task_id)

/-- Task exclusivity: every task is in at most one place (so a task is
never both queued and claimed, nor claimed twice), and each agent holds at
most one claim record. -/
def TaskExclusive (q : QueueState) : Prop :=
  (allTaskIds q).Nodup ∧ (q.claims.map Prod.fst).Nodup

instance (q : QueueState) : Decidable (TaskExclusive q) := by
  unfold TaskExclusive; infer_instance

/-- Modelled from the spec: an order record of the state-machine service,
with the version marker of section 4.5 step 1 that the conditional write
checks. -/
structure SpecOrder where
  current_state : String
  updated_at : Nat
  history : List HistEntry
  version : Nat
deriving DecidableEq

/-- Modelled from the spec: the shared store the Coordinator and Task
Queue operate on. -/
structure SpecState where
  orders : List (Nat × SpecOrder)
  queue : QueueState
deriving DecidableEq

def SpecState.lookup (s : SpecState) (oid : Nat) : Option SpecOrder :=
  alookup s.orders oid

def SpecState.set (s : SpecState) (oid : Nat) (o : SpecOrder) : SpecState :=
  { s with orders := aset s.orders oid o }

/-- Modelled from the spec: request-transition (sections 4.2, 4.5, 7).
Authorization is checked strictly first: a role outside the permitted set
fails fast with Unauthorized before the order is even read, so nothing is
mutated and no Task is enqueued, independent of legality.  Then existence
and legality are checked, and only then a Task is enqueued. -/
def requestTransition (s : SpecState) (role : Role) (oid : Nat) (tname : String)
    (agent : Option String) (now : Nat) (notes : Option String) :
    Except WErr Nat × SpecState :=
  if ¬ isPermitted role tname then (.error .Unauthorized, s)
  else
    match s.lookup oid with
    | none => (.error .NotFound, s)
    | some o =>
      match applyTransition o.current_state tname with
      | .error e => (.error e, s)
      | .ok _ =>
        let (q', tid) := enqueueTask s.queue oid tname role agent now notes
        (.ok tid, { s with queue := q' })

/-- Modelled from the spec: steps 3-5 of executeTransition (section 4.5),
parameterised by the snapshot read in step 1.  Legality is evaluated on
the snapshot; the write is a single conditional attempt that succeeds only
if the stored record still carries the snapshot's version marker, and a
concurrent change aborts with Conflict and no partial update. -/
def executeFrom (s : SpecState) (oid : Nat) (snap : SpecOrder) (tname : String)
    (now : Nat) (notes : Option String) : Except WErr String × SpecState :=
  match applyTransition snap.current_state tname with
  | .error e => (.error e, s)
  | .ok newState =>
    let entry : HistEntry :=
      ⟨newState, now, some (notes.getD ("Transitioned to " ++ newState))⟩
    let newRec : SpecOrder :=
      { current_state := newState
        updated_at := now
        history := snap.history ++ [entry]
        version := snap.version + 1 }
    match s.lookup oid with
    | none => (.error .NotFound, s)
    | some cur =>
      if cur.version = snap.version then (.ok newState, s.set oid newRec)
      else (.error .Conflict, s)

/-- Modelled from the spec: the full executeTransition of section 4.5 —
read the snapshot (step 1), NotFound when the order is missing (step 2),
then steps 3-5. -/
def executeTransition (s : SpecState) (oid : Nat) (tname : String)
    (now : Nat) (notes : Option String) : Except WErr String × SpecState :=
  match s.lookup oid with
  | none => (.error .NotFound, s)
  | some snap => executeFrom s oid snap tname now notes

/-! Lemmas about the association-list store. -/

theorem alookup_append {α : Type} (l₁ l₂ : List (Nat × α)) (k : Nat) :
    alookup (l₁ ++ l₂) k =
      match alookup l₁ k with
      | some v => some v
      | none => alookup l₂ k := by
  induction l₁ with
  | nil => simp [alookup]
  | cons p rest ih =>
    obtain ⟨a, v⟩ := p
    by_cases h : a = k <;> simp [alookup, h, ih]

theorem alookup_aset_self {α : Type} (l : List (Nat × α)) (k : Nat) (v : α) :
    alookup (aset l k v) k = (alookup l k).map (fun _ => v) := by
  induction l with
  | nil => rfl
  | cons p rest ih =>
    obtain ⟨a, w⟩ := p
    by_cases h : a = k
    · subst h
      simp [alookup, aset]
    · simp [alookup, aset, h, ih]

theorem alookup_aset_ne {α : Type} (l : List (Nat × α)) (k k' : Nat) (v : α)
    (h : k' ≠ k) : alookup (aset l k v) k' = alookup l k' := by
  induction l with
  | nil => rfl
  | cons p rest ih =>
    obtain ⟨a, w⟩ := p
    by_cases ha : a = k
    · subst ha
      simp [alookup, aset, Ne.symm h, ih]
    · simp [alookup, aset, ha, ih]

theorem alookup_aremove {α : Type} (l : List (Nat × α)) (k k' : Nat) :
    alookup (aremove l k) k' = if k' = k then none else alookup l k' := by
  induction l with
  | nil => simp [alookup, aremove]
  | cons p rest ih =>
    obtain ⟨a, v⟩ := p
    by_cases ha : a = k
    · subst ha
      by_cases hk : k' = a
      · subst hk
        simp [aremove, ih]
      · simp [aremove, alookup, ih, hk, Ne.symm hk]
    · by_cases hk : a = k'
      · subst hk
        simp [aremove, alookup, ha, ih, Ne.symm ha]
      · simp [aremove, alookup, ha, hk, ih]

/-! Frame lemmas for the record transformers of update_order and
advance_order_status. -/

theorem abf_status (o : OrderRec) (upd : OrderUpdate) :
    (apply_basic_fields o upd).status = o.status := by
  unfold apply_basic_fields
  cases upd.customer_name <;> cases upd.items <;> cases upd.notes <;> simp

theorem abf_history (o : OrderRec) (upd : OrderUpdate) :
    (apply_basic_fields o upd).history = o.history := by
  unfold apply_basic_fields
  cases upd.customer_name <;> cases upd.items <;> cases upd.notes <;> simp

theorem abf_created_at (o : OrderRec) (upd : OrderUpdate) :
    (apply_basic_fields o upd).created_at = o.created_at := by
  unfold apply_basic_fields
  cases upd.customer_name <;> cases upd.items <;> cases upd.notes <;> simp

theorem abf_order_id (o : OrderRec) (upd : OrderUpdate) :
    (apply_basic_fields o upd).order_id = o.order_id := by
  unfold apply_basic_fields
  cases upd.customer_name <;> cases upd.items <;> cases upd.notes <;> simp

theorem abf_placed_at (o : OrderRec) (upd : OrderUpdate) :
    (apply_basic_fields o upd).placed_at = o.placed_at := by
  unfold apply_basic_fields
  cases upd.customer_name <;> cases upd.items <;> cases upd.notes <;> simp

theorem abf_confirmed_at (o : OrderRec) (upd : OrderUpdate) :
    (apply_basic_fields o upd).confirmed_at = o.confirmed_at := by
  unfold apply_basic_fields
  cases upd.customer_name <;> cases upd.items <;> cases upd.notes <;> simp

theorem abf_picked_at (o : OrderRec) (upd : OrderUpdate) :
    (apply_basic_fields o upd).picked_at = o.picked_at := by
  unfold apply_basic_fields
  cases upd.customer_name <;> cases upd.items <;> cases upd.notes <;> simp

theorem abf_packed_at (o : OrderRec) (upd : OrderUpdate) :
    (apply_basic_fields o upd).packed_at = o.packed_at := by
  unfold apply_basic_fields
  cases upd.customer_name <;> cases upd.items <;> cases upd.notes <;> simp

theorem abf_shipped_at (o : OrderRec) (upd : OrderUpdate) :
    (apply_basic_fields o upd).shipped_at = o.shipped_at := by
  unfold apply_basic_fields
  cases upd.customer_name <;> cases upd.items <;> cases upd.notes <;> simp

theorem abf_delivered_at (o : OrderRec) (upd : OrderUpdate) :
    (apply_basic_fields o upd).delivered_at = o.delivered_at := by
  unfold apply_basic_fields
  cases upd.customer_name <;> cases upd.items <;> cases upd.notes <;> simp

theorem abf_cancelled_at (o : OrderRec) (upd : OrderUpdate) :
    (apply_basic_fields o upd).cancelled_at = o.cancelled_at := by
  unfold apply_basic_fields
  cases upd.customer_name <;> cases upd.items <;> cases upd.notes <;> simp

theorem uff_status (o : OrderRec) (st : String) (t : Nat) :
    (update_fulfillment_field o st t).status = o.status := by
  unfold update_fulfillment_field
  split_ifs <;> simp

theorem uff_history (o : OrderRec) (st : String) (t : Nat) :
    (update_fulfillment_field o st t).history = o.history := by
  unfold update_fulfillment_field
  split_ifs <;> simp

theorem uff_created_at (o : OrderRec) (st : String) (t : Nat) :
    (update_fulfillment_field o st t).created_at = o.created_at := by
  unfold update_fulfillment_field
  split_ifs <;> simp

theorem uff_updated_at (o : OrderRec) (st : String) (t : Nat) :
    (update_fulfillment_field o st t).updated_at = o.updated_at := by
  unfold update_fulfillment_field
  split_ifs <;> simp

theorem uff_order_id (o : OrderRec) (st : String) (t : Nat) :
    (update_fulfillment_field o st t).order_id = o.order_id := by
  unfold update_fulfillment_field
  split_ifs <;> simp

theorem uff_items (o : OrderRec) (st : String) (t : Nat) :
    (update_fulfillment_field o st t).items = o.items := by
  unfold update_fulfillment_field
  split_ifs <;> simp

theorem apply_basic_fields_items (o : OrderRec) (upd : OrderUpdate)
    (h : upd.items = none) : (apply_basic_fields o upd).items = o.items := by
  unfold apply_basic_fields
  rw [h]
  cases upd.customer_name <;> cases upd.notes <;> simp

/-! Store-level lookup lemmas. -/

theorem lookup_set_self (s : Store) (oid : Nat) (o o' : OrderRec)
    (h : s.lookup oid = some o) : (s.set oid o').lookup oid = some o' := by
  unfold Store.lookup Store.set at *
  rw [alookup_aset_self, h]
  rfl

theorem lookup_set_ne (s : Store) (oid oid' : Nat) (o' : OrderRec)
    (h : oid' ≠ oid) : (s.set oid o').lookup oid' = s.lookup oid' := by
  unfold Store.lookup Store.set
  exact alookup_aset_ne _ _ _ _ h

theorem lookup_advanceClock (s : Store) (n : Nat) (oid : Nat) :
    (s.advanceClock n).lookup oid = s.lookup oid := rfl

theorem lookup_create (s : Store) (n : String) (its : List String)
    (nts : Option String) (oid : Nat) :
    (create_order s n its nts).1.lookup oid =
      match s.lookup oid with
      | some o => some o
      | none =>
        if s.next_order_id + 1 = oid then some (new_order_record s n its nts)
        else none := by
  unfold Store.lookup create_order
  rw [alookup_append]
  cases h : alookup s.orders oid with
  | some o => rfl
  | none => simp [alookup]

/-! The history invariant of the order store: every stored order has a
nonempty history whose first entry is the initial "pending" state and
whose last entry carries the current status. -/

def OrdInv (o : OrderRec) : Prop :=
  o.history ≠ [] ∧
  o.history.head?.map HistEntry.status = some "pending" ∧
  o.history.getLast?.map HistEntry.status = some o.status

def StoreInv (s : Store) : Prop :=
  ∀ oid o, s.lookup oid = some o → OrdInv o

theorem ordInv_same (o o' : OrderRec) (inv : OrdInv o)
    (hh : o'.history = o.history) (hs : o'.status = o.status) : OrdInv o' := by
  obtain ⟨h1, h2, h3⟩ := inv
  exact ⟨hh ▸ h1, hh ▸ h2, by rw [hh, hs]; exact h3⟩

theorem ordInv_append (o o' : OrderRec) (inv : OrdInv o) (e : HistEntry)
    (hh : o'.history = o.history ++ [e]) (hs : o'.status = e.status) : OrdInv o' := by
  obtain ⟨h1, h2, h3⟩ := inv
  refine ⟨by simp [hh], ?_, ?_⟩
  · rw [hh, List.head?_append_of_ne_nil _ h1]
    exact h2
  · rw [hh, List.getLast?_concat, hs]
    rfl

theorem storeInv_create (s : Store) (n : String) (its : List String)
    (nts : Option String) (h : StoreInv s) : StoreInv (create_order s n its nts).1 := by
  intro oid o ho
  rw [lookup_create] at ho
  cases hl : s.lookup oid with
  | some o₀ =>
    rw [hl] at ho
    exact (Option.some.inj ho) ▸ h oid o₀ hl
  | none =>
    rw [hl] at ho
    by_cases he : s.next_order_id + 1 = oid
    · rw [if_pos he] at ho
      rw [← Option.some.inj ho]
      exact ⟨by simp [new_order_record], rfl, rfl⟩
    · rw [if_neg he] at ho
      cases ho

theorem storeInv_update (s : Store) (oid : Nat) (upd : OrderUpdate)
    (h : StoreInv s) : StoreInv (update_order s oid upd) := by
  intro k o hk
  unfold update_order at hk
  split at hk
  · exact h k o hk
  next o0 hl =>
    have hinv := h oid o0 hl
    by_cases hko : k = oid
    · subst hko
      split at hk
      next st hs =>
        split at hk
        next hst =>
          rw [lookup_advanceClock, lookup_set_self s k _ _ hl] at hk
          refine ordInv_same o0 o hinv ?_ ?_ <;>
            rw [← Option.some.inj hk] <;> simp [abf_status, abf_history, hst]
        next hst =>
          rw [lookup_advanceClock, lookup_set_self s k _ _ hl] at hk
          refine ordInv_append o0 o hinv
              ⟨st, s.clock + 1, some (status_change_note o0.status st upd.notes)⟩ ?_ ?_ <;>
            rw [← Option.some.inj hk] <;> simp [uff_status, uff_history, abf_history]
      next hs =>
        rw [lookup_advanceClock, lookup_set_self s k _ _ hl] at hk
        refine ordInv_same o0 o hinv ?_ ?_ <;>
          rw [← Option.some.inj hk] <;> simp [abf_status, abf_history]
    · split at hk <;>
        [skip; rw [lookup_advanceClock, lookup_set_ne s oid k _ hko] at hk] <;>
        [split at hk <;> rw [lookup_advanceClock, lookup_set_ne s oid k _ hko] at hk <;>
          exact h k o hk;
         exact h k o hk]

theorem storeInv_advance (s : Store) (oid : Nat) (nts : Option String)
    (h : StoreInv s) : StoreInv (advance_order_status s oid nts) := by
  intro k o hk
  unfold advance_order_status at hk
  split at hk
  · exact h k o hk
  next o0 hl =>
    split at hk
    · exact h k o hk
    next nxt hw =>
      by_cases hko : k = oid
      · subst hko
        rw [lookup_advanceClock, lookup_set_self s k _ _ hl] at hk
        have hinv := h k o0 hl
        refine ordInv_append o0 o hinv ⟨nxt, s.clock + 2, some (advance_note nxt nts)⟩ ?_ ?_ <;>
          rw [← Option.some.inj hk] <;> simp [uff_status, uff_history]
      · rw [lookup_advanceClock, lookup_set_ne s oid k _ hko] at hk
        exact h k o hk

theorem storeInv_delete (s : Store) (oid : Nat) (h : StoreInv s) :
    StoreInv (delete_order s oid) := by
  intro k o hk
  unfold delete_order at hk
  split at hk
  · exact h k o hk
  · have : (alookup (aremove s.orders oid) k) = some o := hk
    rw [alookup_aremove] at this
    by_cases hko : k = oid
    · rw [if_pos hko] at this; cases this
    · rw [if_neg hko] at this; exact h k o this

theorem storeInv_step (s : Store) (op : Op) (h : StoreInv s) :
    StoreInv (applyOp s op) := by
  cases op with
  | create n its nts => exact storeInv_create s n its nts h
  | update oid upd => exact storeInv_update s oid upd h
  | advance oid nts => exact storeInv_advance s oid nts h
  | delete oid => exact storeInv_delete s oid h

theorem storeInv_empty : StoreInv Store.empty := by
  intro oid o ho
  cases ho

theorem storeInv_foldl :
    ∀ (ops : List Op) (s : Store), StoreInv s → StoreInv (ops.foldl applyOp s)
  | [], _, h => h
  | op :: ops, s, h => storeInv_foldl ops _ (storeInv_step s op h)

theorem storeInv_runOps (ops : List Op) : StoreInv (runOps ops) :=
  storeInv_foldl ops Store.empty storeInv_empty

/-- Every public operation leaves every surviving order's history equal to
the old history with zero or more entries appended. -/
theorem history_append_only_step (s : Store) (op : Op) (oid : Nat) (o o' : OrderRec)
    (h : s.lookup oid = some o) (h' : (applyOp s op).lookup oid = some o') :
    ∃ t, o'.history = o.history ++ t := by
  cases op with
  | create n its nts =>
    simp only [applyOp] at h'
    rw [lookup_create, h] at h'
    exact ⟨[], by simp [← Option.some.inj h']⟩
  | update oid₂ upd =>
    simp only [applyOp] at h'
    unfold update_order at h'
    split at h'
    · rw [h] at h'
      exact ⟨[], by simp [← Option.some.inj h']⟩
    next o0 hl =>
      by_cases hko : oid = oid₂
      · subst hko
        rw [h] at hl
        have ho0 : o = o0 := Option.some.inj hl
        subst ho0
        split at h'
        next st hs =>
          split at h'
          next hst =>
            rw [lookup_advanceClock, lookup_set_self s oid _ _ h] at h'
            exact ⟨[], by rw [← Option.some.inj h']; simp [abf_history]⟩
          next hst =>
            rw [lookup_advanceClock, lookup_set_self s oid _ _ h] at h'
            refine ⟨[⟨st, s.clock + 1, some (status_change_note o.status st upd.notes)⟩], ?_⟩
            rw [← Option.some.inj h']
            simp [uff_history, abf_history]
        next hs =>
          rw [lookup_advanceClock, lookup_set_self s oid _ _ h] at h'
          exact ⟨[], by rw [← Option.some.inj h']; simp [abf_history]⟩
      · split at h' <;>
          [skip;
           (rw [lookup_advanceClock, lookup_set_ne s oid₂ oid _ hko, h] at h';
            exact ⟨[], by simp [← Option.some.inj h']⟩)]
        split at h' <;>
          rw [lookup_advanceClock, lookup_set_ne s oid₂ oid _ hko, h] at h' <;>
          exact ⟨[], by simp [← Option.some.inj h']⟩
  | advance oid₂ nts =>
    simp only [applyOp] at h'
    unfold advance_order_status at h'
    split at h'
    · rw [h] at h'
      exact ⟨[], by simp [← Option.some.inj h']⟩
    next o0 hl =>
      split at h'
      · rw [h] at h'
        exact ⟨[], by simp [← Option.some.inj h']⟩
      next nxt hw =>
        by_cases hko : oid = oid₂
        · subst hko
          rw [h] at hl
          have ho0 : o = o0 := Option.some.inj hl
          subst ho0
          rw [lookup_advanceClock, lookup_set_self s oid _ _ h] at h'
          refine ⟨[⟨nxt, s.clock + 2, some (advance_note nxt nts)⟩], ?_⟩
          rw [← Option.some.inj h']
          simp [uff_history]
        · rw [lookup_advanceClock, lookup_set_ne s oid₂ oid _ hko, h] at h'
          exact ⟨[], by simp [← Option.some.inj h']⟩
  | delete oid₂ =>
    simp only [applyOp] at h'
    unfold delete_order at h'
    split at h'
    · rw [h] at h'
      exact ⟨[], by simp [← Option.some.inj h']⟩
    · have hrm : (alookup (aremove s.orders oid₂) oid) = some o' := h'
      rw [alookup_aremove] at hrm
      by_cases hko : oid = oid₂
      · rw [if_pos hko] at hrm
        cases hrm
      · rw [if_neg hko] at hrm
        have hrm2 : s.lookup oid = some o' := hrm
        rw [h] at hrm2
        exact ⟨[], by simp [← Option.some.inj hrm2]⟩

/-- Claim C5.  For every order reachable by a run of public operations,
the first history entry records the initial "pending" state, the last
history entry's state equals the order's current status, and a further
public operation can only append to the history (never reorder or
truncate it). -/
theorem C5_history_invariant :
    ∀ (ops : List Op) (oid : Nat) (o : OrderRec),
      (runOps ops).lookup oid = some o →
      (o.history.head?.map HistEntry.status = some "pending" ∧
       o.history.getLast?.map HistEntry.status = some o.status) ∧
      ∀ (op : Op) (o' : OrderRec), (applyOp (runOps ops) op).lookup oid = some o' →
        ∃ t, o'.history = o.history ++ t := by
  intro ops oid o ho
  have hinv := storeInv_runOps ops oid o ho
  exact ⟨⟨hinv.2.1, hinv.2.2⟩,
    fun op o' h' => history_append_only_step _ op oid o o' ho h'⟩

/-- The record produced by the single creation in the C5 witness run. -/
def c5rec : OrderRec :=
  { order_id := 1
    customer_name := "Alice"
    items := "Widget"
    status := "pending"
    notes := ""
    created_at := 0
    updated_at := 0
    placed_at := some 0
    confirmed_at := none
    picked_at := none
    packed_at := none
    shipped_at := none
    delivered_at := none
    cancelled_at := none
    history := [⟨"pending", 1, some "Order created"⟩] }

/-- Witness for C5 at a concrete one-operation run. -/
theorem C5_history_invariant_witness :
    (runOps [Op.create "Alice" ["Widget"] none]).lookup 1 = some c5rec ∧
    (c5rec.history.head?.map HistEntry.status = some "pending" ∧
     c5rec.history.getLast?.map HistEntry.status = some c5rec.status) :=
  ⟨by decide, (C5_history_invariant [Op.create "Alice" ["Widget"] none] 1 c5rec (by decide)).1⟩

/-- Claim C6.  Creating an order for "Alice" with the single item "Widget"
and reading it back through GET /orders/{id} yields status (the spec's
current_state) "pending", customer_name "Alice" and items ["Widget"]. -/
theorem C6_create_get_roundtrip :
    (get_order (create_order Store.empty "Alice" ["Widget"] none).1
        (create_order Store.empty "Alice" ["Widget"] none).2).map
      (fun o => (o.status, o.customer_name, o.items)) =
    some ("pending", "Alice", ["Widget"]) := by
  decide

/-! Workflow-graph compliance of histories. -/

theorem chainOk_concat (l : List String) (a b : String)
    (hlast : l.getLast? = some a) :
    chainOk (l ++ [b]) = (chainOk l && isDeclaredEdge a b) := by
  induction l with
  | nil => cases hlast
  | cons x xs ih =>
    cases xs with
    | nil =>
      have ha : x = a := Option.some.inj (by simpa using hlast)
      subst ha
      simp [chainOk]
    | cons y ys =>
      have hlast' : (y :: ys).getLast? = some a := by
        rwa [List.getLast?_cons_cons] at hlast
      have hih := ih hlast'
      simp only [List.cons_append] at hih ⊢
      simp [chainOk, hih, Bool.and_assoc]

theorem workflow_next_declared (st nxt : String) (h : workflow_next st = some nxt) :
    isDeclaredEdge st nxt = true := by
  unfold workflow_next at h
  split_ifs at h with h1 h2 h3 h4 h5
  · subst h1; rw [← Option.some.inj h]; decide
  · subst h2; rw [← Option.some.inj h]; decide
  · subst h3; rw [← Option.some.inj h]; decide
  · subst h4; rw [← Option.some.inj h]; decide
  · subst h5; rw [← Option.some.inj h]; decide

/-- An operation that never writes a status through PATCH /orders/{id}
(the path the counterexample shows performs no workflow validation). -/
def statusSafe : Op → Prop
  | .update _ upd => upd.status = none
  | _ => True

def ChainInv (s : Store) : Prop :=
  ∀ oid o, s.lookup oid = some o →
    o.history ≠ [] ∧
    o.history.getLast?.map HistEntry.status = some o.status ∧
    chainOk (historyStates o) = true

theorem chainInv_create (s : Store) (n : String) (its : List String)
    (nts : Option String) (h : ChainInv s) : ChainInv (create_order s n its nts).1 := by
  intro oid o ho
  rw [lookup_create] at ho
  cases hl : s.lookup oid with
  | some o₀ =>
    rw [hl] at ho
    exact (Option.some.inj ho) ▸ h oid o₀ hl
  | none =>
    rw [hl] at ho
    by_cases he : s.next_order_id + 1 = oid
    · rw [if_pos he] at ho
      rw [← Option.some.inj ho]
      refine ⟨by simp [new_order_record], rfl, ?_⟩
      simp [new_order_record, historyStates, chainOk]
    · rw [if_neg he] at ho
      cases ho

theorem chainInv_update (s : Store) (oid : Nat) (upd : OrderUpdate)
    (hsafe : upd.status = none) (h : ChainInv s) : ChainInv (update_order s oid upd) := by
  intro k o hk
  unfold update_order at hk
  split at hk
  · exact h k o hk
  next o0 hl =>
    split at hk
    next st hs => rw [hsafe] at hs; cases hs
    next hs =>
      by_cases hko : k = oid
      · subst hko
        rw [lookup_advanceClock, lookup_set_self s k _ _ hl] at hk
        obtain ⟨h1, h2, h3⟩ := h k o0 hl
        rw [← Option.some.inj hk]
        refine ⟨by simpa [abf_history] using h1, ?_, ?_⟩
        · simpa [abf_history, abf_status] using h2
        · simpa [historyStates, abf_history] using h3
      · rw [lookup_advanceClock, lookup_set_ne s oid k _ hko] at hk
        exact h k o hk

theorem chainInv_advance (s : Store) (oid : Nat) (nts : Option String)
    (h : ChainInv s) : ChainInv (advance_order_status s oid nts) := by
  intro k o hk
  unfold advance_order_status at hk
  split at hk
  · exact h k o hk
  next o0 hl =>
    split at hk
    · exact h k o hk
    next nxt hw =>
      by_cases hko : k = oid
      · subst hko
        rw [lookup_advanceClock, lookup_set_self s k _ _ hl] at hk
        obtain ⟨h1, h2, h3⟩ := h k o0 hl
        have hstates : (historyStates o0).getLast? = some o0.status := by
          rw [historyStates, List.getLast?_map]
          exact h2
        rw [← Option.some.inj hk]
        refine ⟨by simp [uff_history], ?_, ?_⟩
        · simp [uff_history, uff_status, List.getLast?_concat]
        · have : historyStates
              { update_fulfillment_field { o0 with status := nxt, updated_at := s.clock }
                  nxt (s.clock + 1) with
                history := (update_fulfillment_field
                  { o0 with status := nxt, updated_at := s.clock } nxt (s.clock + 1)).history ++
                  [⟨nxt, s.clock + 2, some (advance_note nxt nts)⟩] } =
              historyStates o0 ++ [nxt] := by
            simp [historyStates, uff_history]
          rw [this, chainOk_concat (historyStates o0) o0.status nxt hstates, h3,
            workflow_next_declared o0.status nxt hw]
          rfl
      · rw [lookup_advanceClock, lookup_set_ne s oid k _ hko] at hk
        exact h k o hk

theorem chainInv_delete (s : Store) (oid : Nat) (h : ChainInv s) :
    ChainInv (delete_order s oid) := by
  intro k o hk
  unfold delete_order at hk
  split at hk
  · exact h k o hk
  · have hrm : (alookup (aremove s.orders oid) k) = some o := hk
    rw [alookup_aremove] at hrm
    by_cases hko : k = oid
    · rw [if_pos hko] at hrm; cases hrm
    · rw [if_neg hko] at hrm; exact h k o hrm

theorem chainInv_step (s : Store) (op : Op) (hsafe : statusSafe op)
    (h : ChainInv s) : ChainInv (applyOp s op) := by
  cases op with
  | create n its nts => exact chainInv_create s n its nts h
  | update oid upd => exact chainInv_update s oid upd hsafe h
  | advance oid nts => exact chainInv_advance s oid nts h
  | delete oid => exact chainInv_delete s oid h

theorem chainInv_empty : ChainInv Store.empty := by
  intro oid o ho
  cases ho

theorem chainInv_foldl :
    ∀ (ops : List Op) (s : Store), (∀ op ∈ ops, statusSafe op) →
      ChainInv s → ChainInv (ops.foldl applyOp s)
  | [], _, _, h => h
  | op :: ops, s, hsafe, h =>
    chainInv_foldl ops _ (fun x hx => hsafe x (List.mem_cons_of_mem op hx))
      (chainInv_step s op (hsafe op (List.mem_cons_self op ops)) h)

/-- Claim C1 is refuted by the code: PATCH /orders/{id} applies any
requested status with no workflow validation, so one update produces the
history pending, shipped although (pending, shipped) is not a declared
edge of the Workflow Graph. -/
theorem C1_counterexample :
    ((runOps [Op.create "Alice" ["Widget"] none,
        Op.update 1 { status := some "shipped" }]).lookup 1).map historyStates =
      some ["pending", "shipped"] ∧
    isDeclaredEdge "pending" "shipped" = false ∧
    chainOk ["pending", "shipped"] = false := by
  decide

/-- Claim C1 (amended).  In every run of the public operations in which no
update-order call writes a status (creation, advance-order, delete-order
and status-free updates remain unrestricted), every surviving order's
history walks only declared edges of the Workflow Graph; advance-order by
itself only ever produces declared forward edges. -/
theorem C1_amended_graph_compliance :
    ∀ ops : List Op, (∀ op ∈ ops, statusSafe op) →
      ∀ oid o, (runOps ops).lookup oid = some o →
        chainOk (historyStates o) = true := by
  intro ops hsafe oid o ho
  exact (chainInv_foldl ops Store.empty hsafe chainInv_empty oid o ho).2.2

/-- The record produced by the C1 witness run: one creation followed by
one advance to "confirmed". -/
def c1rec : OrderRec :=
  { order_id := 1
    customer_name := "Bob"
    items := "Gadget"
    status := "confirmed"
    notes := ""
    created_at := 0
    updated_at := 2
    placed_at := some 0
    confirmed_at := some 3
    picked_at := none
    packed_at := none
    shipped_at := none
    delivered_at := none
    cancelled_at := none
    history := [⟨"pending", 1, some "Order created"⟩,
                ⟨"confirmed", 4, some "Order advanced to confirmed"⟩] }

/-- Witness for the amended C1 at a concrete status-safe run. -/
theorem C1_amended_witness :
    (runOps [Op.create "Bob" ["Gadget"] none, Op.advance 1 none]).lookup 1 = some c1rec ∧
    chainOk (historyStates c1rec) = true :=
  ⟨by decide,
   C1_amended_graph_compliance [Op.create "Bob" ["Gadget"] none, Op.advance 1 none]
     (by intro op hop; simp [statusSafe] at hop ⊢; rcases hop with h | h <;> subst h <;> trivial)
     1 c1rec (by decide)⟩

/-! Frame behaviour of PATCH /orders/{id} and POST /orders/{id}/advance. -/

/-- Claim C9.  A successful PATCH whose status is omitted or equal to the
current status leaves the history and all seven fulfillment timestamps
unchanged, while every successful PATCH rewrites updated_at with a fresh
timestamp (drawn during the call: no earlier than the clock at entry, and
the last value drawn before the call returns). -/
theorem C9_update_order_frame :
    ∀ (s : Store) (oid : Nat) (upd : OrderUpdate) (o : OrderRec),
      s.lookup oid = some o →
      ∃ o', (update_order s oid upd).lookup oid = some o' ∧
        ((upd.status = none ∨ upd.status = some o.status) →
          o'.history = o.history ∧
          o'.placed_at = o.placed_at ∧ o'.confirmed_at = o.confirmed_at ∧
          o'.picked_at = o.picked_at ∧ o'.packed_at = o.packed_at ∧
          o'.shipped_at = o.shipped_at ∧ o'.delivered_at = o.delivered_at ∧
          o'.cancelled_at = o.cancelled_at) ∧
        s.clock ≤ o'.updated_at ∧
        o'.updated_at + 1 = (update_order s oid upd).clock := by
  intro s oid upd o h
  unfold update_order
  split
  next hl => rw [h] at hl; cases hl
  next o0 hl =>
    rw [h] at hl
    have ho0 : o = o0 := Option.some.inj hl
    subst ho0
    split
    next st hs =>
      split
      next hst =>
        refine ⟨{ apply_basic_fields o upd with updated_at := s.clock }, ?_, ?_, ?_, ?_⟩
        · rw [lookup_advanceClock]
          exact lookup_set_self s oid _ _ h
        · intro _
          refine ⟨?_, ?_, ?_, ?_, ?_, ?_, ?_, ?_⟩ <;>
            simp [abf_history, abf_placed_at, abf_confirmed_at, abf_picked_at,
              abf_packed_at, abf_shipped_at, abf_delivered_at, abf_cancelled_at]
        · simp
        · simp [Store.advanceClock, Store.set]
      next hst =>
        refine ⟨{ update_fulfillment_field { apply_basic_fields o upd with status := st }
              st s.clock with
            history := (update_fulfillment_field { apply_basic_fields o upd with status := st }
              st s.clock).history ++
              [⟨st, s.clock + 1, some (status_change_note o.status st upd.notes)⟩],
            updated_at := s.clock + 2 }, ?_, ?_, ?_, ?_⟩
        · rw [lookup_advanceClock]
          exact lookup_set_self s oid _ _ h
        · intro habs
          rcases habs with habs | habs
          · rw [habs] at hs; cases hs
          · rw [habs] at hs
            exact absurd (Option.some.inj hs).symm hst
        · simp
        · simp [Store.advanceClock, Store.set]
    next hs =>
      refine ⟨{ apply_basic_fields o upd with updated_at := s.clock }, ?_, ?_, ?_, ?_⟩
      · rw [lookup_advanceClock]
        exact lookup_set_self s oid _ _ h
      · intro _
        refine ⟨?_, ?_, ?_, ?_, ?_, ?_, ?_, ?_⟩ <;>
          simp [abf_history, abf_placed_at, abf_confirmed_at, abf_picked_at,
            abf_packed_at, abf_shipped_at, abf_delivered_at, abf_cancelled_at]
      · simp
      · simp [Store.advanceClock, Store.set]

/-- Witness for C9: a status-free PATCH on a concrete store. -/
theorem C9_update_order_frame_witness :
    ∃ o', (update_order (runOps [Op.create "Alice" ["Widget"] none]) 1
        { notes := some "hello" }).lookup 1 = some o' ∧
      (({ notes := some "hello" } : OrderUpdate).status = none ∨
        ({ notes := some "hello" } : OrderUpdate).status = some c5rec.status →
          o'.history = c5rec.history ∧
          o'.placed_at = c5rec.placed_at ∧ o'.confirmed_at = c5rec.confirmed_at ∧
          o'.picked_at = c5rec.picked_at ∧ o'.packed_at = c5rec.packed_at ∧
          o'.shipped_at = c5rec.shipped_at ∧ o'.delivered_at = c5rec.delivered_at ∧
          o'.cancelled_at = c5rec.cancelled_at) ∧
      (runOps [Op.create "Alice" ["Widget"] none]).clock ≤ o'.updated_at ∧
      o'.updated_at + 1 =
        (update_order (runOps [Op.create "Alice" ["Widget"] none]) 1
          { notes := some "hello" }).clock := by
  obtain ⟨o', h1, h2, h3⟩ :=
    C9_update_order_frame (runOps [Op.create "Alice" ["Widget"] none]) 1
      { notes := some "hello" } c5rec (by decide)
  exact ⟨o', h1, fun _ => h2 (Or.inl rfl), h3⟩

/-- Claim C10.  order_id and created_at are assigned at creation and no
call of update_order or advance_order_status, whatever its arguments and
target, ever changes them on an existing order. -/
theorem C10_creation_fields_immutable :
    ∀ (s : Store),
      (∀ (oid : Nat) (o : OrderRec), s.lookup oid = some o →
        (∀ (oid₂ : Nat) (upd : OrderUpdate) (o' : OrderRec),
          (update_order s oid₂ upd).lookup oid = some o' →
          o'.created_at = o.created_at ∧ o'.order_id = o.order_id) ∧
        (∀ (oid₂ : Nat) (nts : Option String) (o' : OrderRec),
          (advance_order_status s oid₂ nts).lookup oid = some o' →
          o'.created_at = o.created_at ∧ o'.order_id = o.order_id)) ∧
      (∀ (n : String) (its : List String) (nts : Option String),
        s.lookup (s.next_order_id + 1) = none →
        ((create_order s n its nts).1.lookup (create_order s n its nts).2).map
          (fun o' => (o'.created_at, o'.order_id)) =
          some (s.clock, s.next_order_id + 1)) := by
  intro s
  constructor
  · intro oid o h
    constructor
    · intro oid₂ upd o' h'
      unfold update_order at h'
      split at h'
      · rw [h] at h'
        rw [← Option.some.inj h']
        exact ⟨rfl, rfl⟩
      next o0 hl =>
        by_cases hko : oid = oid₂
        · subst hko
          rw [h] at hl
          have ho0 : o = o0 := Option.some.inj hl
          subst ho0
          split at h'
          next st hs =>
            split at h'
            next hst =>
              rw [lookup_advanceClock, lookup_set_self s oid _ _ h] at h'
              rw [← Option.some.inj h']
              exact ⟨by simp [abf_created_at], by simp [abf_order_id]⟩
            next hst =>
              rw [lookup_advanceClock, lookup_set_self s oid _ _ h] at h'
              rw [← Option.some.inj h']
              exact ⟨by simp [uff_created_at, abf_created_at],
                by simp [uff_order_id, abf_order_id]⟩
          next hs =>
            rw [lookup_advanceClock, lookup_set_self s oid _ _ h] at h'
            rw [← Option.some.inj h']
            exact ⟨by simp [abf_created_at], by simp [abf_order_id]⟩
        · split at h'
          next st hs =>
            split at h' <;>
              rw [lookup_advanceClock, lookup_set_ne s oid₂ oid _ hko, h] at h' <;>
              rw [← Option.some.inj h'] <;> exact ⟨rfl, rfl⟩
          next hs =>
            rw [lookup_advanceClock, lookup_set_ne s oid₂ oid _ hko, h] at h'
            rw [← Option.some.inj h']
            exact ⟨rfl, rfl⟩
    · intro oid₂ nts o' h'
      unfold advance_order_status at h'
      split at h'
      · rw [h] at h'
        rw [← Option.some.inj h']
        exact ⟨rfl, rfl⟩
      next o0 hl =>
        split at h'
        · rw [h] at h'
          rw [← Option.some.inj h']
          exact ⟨rfl, rfl⟩
        next nxt hw =>
          by_cases hko : oid = oid₂
          · subst hko
            rw [h] at hl
            have ho0 : o = o0 := Option.some.inj hl
            subst ho0
            rw [lookup_advanceClock, lookup_set_self s oid _ _ h] at h'
            rw [← Option.some.inj h']
            exact ⟨by simp [uff_created_at], by simp [uff_order_id]⟩
          · rw [lookup_advanceClock, lookup_set_ne s oid₂ oid _ hko, h] at h'
            rw [← Option.some.inj h']
            exact ⟨rfl, rfl⟩
  · intro n its nts hfresh
    rw [lookup_create]
    simp only [create_order]
    rw [hfresh]
    simp [new_order_record]

/-- Witness for C10 at a concrete store and update. -/
theorem C10_creation_fields_immutable_witness :
    (∃ o', (update_order (runOps [Op.create "Alice" ["Widget"] none]) 1
        { status := some "shipped" }).lookup 1 = some o' ∧
      o'.created_at = c5rec.created_at ∧ o'.order_id = c5rec.order_id) ∧
    ((create_order Store.empty "Alice" ["Widget"] none).1.lookup 1).map
      (fun o' => (o'.created_at, o'.order_id)) = some (0, 1) := by
  have h := C10_creation_fields_immutable (runOps [Op.create "Alice" ["Widget"] none])
  have h2 := C10_creation_fields_immutable Store.empty
  constructor
  · obtain ⟨hu, _⟩ := (h.1 1 c5rec (by decide))
    obtain ⟨o', ho'⟩ : ∃ o',
        (update_order (runOps [Op.create "Alice" ["Widget"] none]) 1
          { status := some "shipped" }).lookup 1 = some o' := ⟨_, rfl⟩
    exact ⟨o', ho', hu 1 { status := some "shipped" } o' ho'⟩
  · exact h2.2 "Alice" ["Widget"] none (by decide)

/-! Listing orders. -/

theorem alookup_mem_keys {α : Type} (l : List (Nat × α)) (k : Nat) (v : α)
    (h : alookup l k = some v) : k ∈ l.map Prod.fst := by
  induction l with
  | nil => cases h
  | cons p rest ih =>
    obtain ⟨a, w⟩ := p
    by_cases ha : a = k
    · subst ha; simp
    · simp only [alookup, if_neg ha] at h
      simp [ih h]

theorem mem_insertSorted (m n : Nat) (l : List Nat) :
    m ∈ insertSorted n l ↔ m = n ∨ m ∈ l := by
  induction l with
  | nil => simp [insertSorted]
  | cons x xs ih =>
    simp only [insertSorted]
    split_ifs with hx
    · simp
    · simp only [List.mem_cons, ih]
      tauto

theorem mem_sortNat (n : Nat) (l : List Nat) (h : n ∈ l) : n ∈ sortNat l := by
  induction l with
  | nil => cases h
  | cons x xs ih =>
    simp only [sortNat, List.foldr] at *
    rw [mem_insertSorted]
    rcases List.mem_cons.mp h with h | h
    · exact Or.inl h
    · exact Or.inr (ih h)

/-- Claim C7 is refuted: the GET /orders route of src/app.py declares no
limit parameter, so a caller-supplied limit of 1 still yields both of the
two existing orders. -/
theorem C7_counterexample :
    (list_orders_with_limit
        (runOps [Op.create "A" ["x"] none, Op.create "B" ["y"] none]) 1).length = 2 ∧
    ¬ ((list_orders_with_limit
        (runOps [Op.create "A" ["x"] none, Op.create "B" ["y"] none]) 1).length ≤ 1) := by
  decide

/-- Claim C7 (amended).  listOrders ignores the supplied limit and returns
the full listing, and every stored order does appear in that listing, so a
caller can enumerate all known orders. -/
theorem C7_amended_list_orders :
    ∀ (s : Store) (limit : Nat),
      list_orders_with_limit s limit = list_orders s ∧
      ∀ (oid : Nat) (o : OrderRec), s.lookup oid = some o →
        get_order_response o ∈ list_orders s := by
  intro s limit
  refine ⟨rfl, ?_⟩
  intro oid o h
  have hkey : oid ∈ s.orders.map Prod.fst := alookup_mem_keys _ _ _ h
  have hsort : oid ∈ sortNat (s.orders.map Prod.fst) := mem_sortNat _ _ hkey
  unfold list_orders
  rw [List.mem_filterMap]
  exact ⟨oid, hsort, by simp [get_order, h]⟩

/-- The first record of the two-order store used in the C7 witness. -/
def c7rec : OrderRec :=
  { order_id := 1
    customer_name := "A"
    items := "x"
    status := "pending"
    notes := ""
    created_at := 0
    updated_at := 0
    placed_at := some 0
    confirmed_at := none
    picked_at := none
    packed_at := none
    shipped_at := none
    delivered_at := none
    cancelled_at := none
    history := [⟨"pending", 1, some "Order created"⟩] }

/-- Witness for the amended C7 at a concrete two-order store. -/
theorem C7_amended_witness :
    list_orders_with_limit
        (runOps [Op.create "A" ["x"] none, Op.create "B" ["y"] none]) 1 =
      list_orders (runOps [Op.create "A" ["x"] none, Op.create "B" ["y"] none]) ∧
    get_order_response c7rec ∈
      list_orders (runOps [Op.create "A" ["x"] none, Op.create "B" ["y"] none]) :=
  ⟨(C7_amended_list_orders (runOps [Op.create "A" ["x"] none, Op.create "B" ["y"] none]) 1).1,
   (C7_amended_list_orders (runOps [Op.create "A" ["x"] none, Op.create "B" ["y"] none]) 1).2
     1 c7rec (by decide)⟩

/-! Joining and splitting item lists. -/

theorem splitChars_no_comma (l : List Char) (h : (',' : Char) ∉ l) :
    splitChars l = [l] := by
  induction l with
  | nil => rfl
  | cons c rest ih =>
    have hc : c ≠ ',' := fun hc => h (hc ▸ List.mem_cons_self c rest)
    have hr : (',' : Char) ∉ rest := fun hr => h (List.mem_cons_of_mem c hr)
    simp [splitChars, ih hr, hc]

theorem splitChars_append (x t : List Char) (h : (',' : Char) ∉ x) :
    splitChars (x ++ ',' :: t) = x :: splitChars t := by
  induction x with
  | nil => simp [splitChars]
  | cons c x' ih =>
    have hc : c ≠ ',' := fun hc => h (hc ▸ List.mem_cons_self c x')
    have hx' : (',' : Char) ∉ x' := fun hx => h (List.mem_cons_of_mem c hx)
    simp [splitChars, ih hx', hc]

theorem splitChars_joinChars (xss : List (List Char)) (hne : xss ≠ [])
    (h : ∀ xs ∈ xss, (',' : Char) ∉ xs) : splitChars (joinChars xss) = xss := by
  induction xss with
  | nil => cases hne rfl
  | cons x xs ih =>
    cases xs with
    | nil =>
      simp only [joinChars]
      exact splitChars_no_comma x (h x (List.mem_cons_self x []))
    | cons y ys =>
      simp only [joinChars]
      rw [splitChars_append x _ (h x (List.mem_cons_self x (y :: ys)))]
      rw [ih (by simp) (fun z hz => h z (List.mem_cons_of_mem x hz))]

theorem joinChars_ne_nil (xss : List (List Char)) (hne : xss ≠ [])
    (hhead : ∀ xs ∈ xss, xs ≠ []) : joinChars xss ≠ [] := by
  cases xss with
  | nil => cases hne rfl
  | cons x xs =>
    cases xs with
    | nil => exact hhead x (List.mem_cons_self x [])
    | cons y ys => simp [joinChars]

theorem splitItems_joinItems (items : List String) (hne : items ≠ [])
    (h : ∀ it ∈ items, it ≠ "" ∧ (',' : Char) ∉ it.data) :
    splitItems (joinItems items) = items := by
  unfold splitItems joinItems
  have hnil : joinChars (items.map String.data) ≠ [] := by
    apply joinChars_ne_nil
    · simpa using hne
    · intro xs hxs
      obtain ⟨it, hit, rfl⟩ := List.mem_map.mp hxs
      intro habs
      apply (h it hit).1
      cases it with
      | mk d => simp at habs; simp [habs]
  have hd : (String.mk (joinChars (items.map String.data))).data
      = joinChars (items.map String.data) := rfl
  rw [hd, if_neg (by simpa [List.isEmpty_iff] using hnil)]
  rw [splitChars_joinChars (items.map String.data) (by simpa using hne)
    (fun xs hxs => by
      obtain ⟨it, hit, rfl⟩ := List.mem_map.mp hxs
      exact (h it hit).2)]
  rw [List.map_map]
  exact List.map_id'' (fun it => rfl) items

/-- Claim C8.  For creation inputs whose item names are nonempty and
comma-free, reading the order back returns exactly the supplied list; but
because the store holds one comma-joined string, an item name containing
a comma comes back split apart. -/
theorem C8_items_persistence :
    (∀ (s : Store) (n : String) (items : List String) (nts : Option String),
      s.lookup (s.next_order_id + 1) = none →
      items ≠ [] →
      (∀ it ∈ items, it ≠ "" ∧ (',' : Char) ∉ it.data) →
      (get_order (create_order s n items nts).1 (create_order s n items nts).2).map
        OrderOut.items = some items) ∧
    ((get_order (create_order Store.empty "A" ["a,b"] none).1
        (create_order Store.empty "A" ["a,b"] none).2).map OrderOut.items =
      some ["a", "b"] ∧ (["a", "b"] : List String) ≠ ["a,b"]) := by
  constructor
  · intro s n items nts hfresh hne hitems
    unfold get_order
    rw [lookup_create]
    simp only [create_order]
    rw [hfresh]
    simp [get_order_response]
    show splitItems (new_order_record s n items nts).items = items
    simp only [new_order_record]
    exact splitItems_joinItems items hne hitems
  · exact ⟨by decide, by decide⟩

/-- Witness for C8 at a concrete comma-free creation. -/
theorem C8_items_persistence_witness :
    (get_order (create_order Store.empty "Alice" ["Widget"] none).1
        (create_order Store.empty "Alice" ["Widget"] none).2).map OrderOut.items =
      some ["Widget"] :=
  C8_items_persistence.1 Store.empty "Alice" ["Widget"] none (by decide) (by decide)
    (by decide)

/-! The spec-modelled Transition Coordinator. -/

theorem spec_lookup_set_self (s : SpecState) (oid : Nat) (o o' : SpecOrder)
    (h : s.lookup oid = some o) : (s.set oid o').lookup oid = some o' := by
  unfold SpecState.lookup SpecState.set at *
  rw [alookup_aset_self, h]
  rfl

/-- Claim C2 (spec-modelled).  A request-transition whose role is outside
the permitted set of the transition is rejected with Unauthorized and the
entire shared state — orders and queue alike — is returned unchanged, so
nothing is mutated and no Task is enqueued; the statement assumes nothing
about the transition being legal from the order's current state. -/
theorem C2_unauthorized_rejected :
    ∀ (s : SpecState) (role : Role) (oid : Nat) (tname : String)
      (agent : Option String) (now : Nat) (notes : Option String),
      isPermitted role tname = false →
      requestTransition s role oid tname agent now notes =
        (.error .Unauthorized, s) := by
  intro s role oid tname agent now notes h
  simp [requestTransition, h]

/-- The one-order shared state used by the coordinator witnesses. -/
def c2state : SpecState :=
  ⟨[(1, ⟨"pending", 0, [⟨"pending", 0, none⟩], 0⟩)], QueueState.empty⟩

/-- Witness for C2: the customer role requesting "confirm", a transition
that is legal from the order's pending state yet not permitted to it. -/
theorem C2_unauthorized_rejected_witness :
    isPermitted Role.customer "confirm" = false ∧
    applyTransition "pending" "confirm" = .ok "confirmed" ∧
    requestTransition c2state Role.customer 1 "confirm" none 5 none =
      (.error .Unauthorized, c2state) :=
  ⟨by decide, by decide,
   C2_unauthorized_rejected c2state Role.customer 1 "confirm" none 5 none (by decide)⟩

/-- Claim C3 (spec-modelled).  The conditional write of executeTransition
succeeds only when the stored record still carries the snapshot's version;
a concurrent change yields Conflict with no update at all, and when two
executions race from the same snapshot the first to write wins, installs
its complete new record in one step, and the loser observes Conflict with
the state left exactly as the winner wrote it. -/
theorem C3_optimistic_concurrency :
    ∀ (s : SpecState) (oid : Nat) (snap cur : SpecOrder) (t : String)
      (now : Nat) (nts : Option String) (ns : String),
      applyTransition snap.current_state t = .ok ns →
      s.lookup oid = some cur →
      ((cur.version ≠ snap.version →
          executeFrom s oid snap t now nts = (.error .Conflict, s)) ∧
       (cur.version = snap.version →
          executeFrom s oid snap t now nts =
            (.ok ns, s.set oid
              { current_state := ns
                updated_at := now
                history := snap.history ++
                  [⟨ns, now, some (nts.getD ("Transitioned to " ++ ns))⟩]
                version := snap.version + 1 }))) ∧
      (∀ (t2 : String) (now2 : Nat) (nts2 : Option String) (ns2 : String),
        applyTransition snap.current_state t2 = .ok ns2 →
        cur.version = snap.version →
        (executeFrom s oid snap t now nts).1 = .ok ns ∧
        ((executeFrom s oid snap t now nts).2.lookup oid).map SpecOrder.current_state
          = some ns ∧
        (executeFrom (executeFrom s oid snap t now nts).2 oid snap t2 now2 nts2).1
          = .error .Conflict ∧
        (executeFrom (executeFrom s oid snap t now nts).2 oid snap t2 now2 nts2).2
          = (executeFrom s oid snap t now nts).2) := by
  intro s oid snap cur t now nts ns ht hcur
  have hA : cur.version ≠ snap.version →
      executeFrom s oid snap t now nts = (.error .Conflict, s) := by
    intro hne
    simp [executeFrom, ht, hcur, hne]
  have hB : cur.version = snap.version →
      executeFrom s oid snap t now nts =
        (.ok ns, s.set oid
          { current_state := ns
            updated_at := now
            history := snap.history ++
              [⟨ns, now, some (nts.getD ("Transitioned to " ++ ns))⟩]
            version := snap.version + 1 }) := by
    intro heq
    simp [executeFrom, ht, hcur, heq]
  refine ⟨⟨hA, hB⟩, ?_⟩
  intro t2 now2 nts2 ns2 ht2 heq
  rw [hB heq]
  have hlook := spec_lookup_set_self s oid cur
    { current_state := ns
      updated_at := now
      history := snap.history ++
        [⟨ns, now, some (nts.getD ("Transitioned to " ++ ns))⟩]
      version := snap.version + 1 } hcur
  refine ⟨rfl, ?_, ?_, ?_⟩
  · rw [hlook]
    rfl
  · simp [executeFrom, ht2, hlook]
  · simp [executeFrom, ht2, hlook]

/-- The snapshot both racing coordinators read in the C3 witness. -/
def c3snap : SpecOrder := ⟨"pending", 0, [⟨"pending", 0, none⟩], 0⟩

/-- Witness for C3: "confirm" and "cancel_from_pending" race from the same
pending snapshot; the first wins, the second gets Conflict. -/
theorem C3_optimistic_concurrency_witness :
    (executeFrom c2state 1 c3snap "confirm" 5 none).1 = .ok "confirmed" ∧
    ((executeFrom c2state 1 c3snap "confirm" 5 none).2.lookup 1).map
      SpecOrder.current_state = some "confirmed" ∧
    (executeFrom (executeFrom c2state 1 c3snap "confirm" 5 none).2 1 c3snap
      "cancel_from_pending" 6 none).1 = .error .Conflict ∧
    (executeFrom (executeFrom c2state 1 c3snap "confirm" 5 none).2 1 c3snap
      "cancel_from_pending" 6 none).2 =
      (executeFrom c2state 1 c3snap "confirm" 5 none).2 :=
  (C3_optimistic_concurrency c2state 1 c3snap c3snap "confirm" 5 none "confirmed"
    (by decide) (by decide)).2 "cancel_from_pending" 6 none "cancelled" (by decide) rfl

/-! The spec-modelled Task Queue: claim exclusivity. -/

def claimTaskIds (claims : List (String × Task)) : List Nat :=
  claims.map (fun c => c.2.task_id)

theorem removeClaim_sublist (l : List (String × Task)) (a : String) :
    List.Sublist (removeClaim l a) l := by
  induction l with
  | nil => simp [removeClaim]
  | cons p rest ih =>
    obtain ⟨b, t⟩ := p
    by_cases hb : b = a
    · rw [removeClaim, if_pos hb]
      exact ih.cons _
    · rw [removeClaim, if_neg hb]
      exact ih.cons₂ _

theorem count_removeClaim_ids_le (l : List (String × Task)) (a : String) (i : Nat) :
    (claimTaskIds (removeClaim l a)).count i ≤ (claimTaskIds l).count i :=
  ((removeClaim_sublist l a).map _).count_le i

theorem count_removeClaim_keys_le (l : List (String × Task)) (a b : String) :
    ((removeClaim l a).map Prod.fst).count b ≤ (l.map Prod.fst).count b :=
  ((removeClaim_sublist l a).map _).count_le b

theorem count_removeClaim_keys_self (l : List (String × Task)) (a : String) :
    ((removeClaim l a).map Prod.fst).count a = 0 := by
  induction l with
  | nil => simp [removeClaim]
  | cons p rest ih =>
    obtain ⟨b, t⟩ := p
    by_cases hb : b = a
    · rw [removeClaim, if_pos hb]
      exact ih
    · rw [removeClaim, if_neg hb]
      simp only [List.map_cons, List.count_cons, ih]
      simp [hb]

theorem count_removeClaim_ids_lookup (l : List (String × Task)) (a : String) (t : Task)
    (h : lookupClaim l a = some t) :
    (claimTaskIds (removeClaim l a)).count t.task_id + 1 ≤
      (claimTaskIds l).count t.task_id := by
  induction l with
  | nil => cases h
  | cons p rest ih =>
    obtain ⟨b, u⟩ := p
    by_cases hb : b = a
    · rw [lookupClaim, if_pos hb] at h
      have hu : u = t := Option.some.inj h
      subst hu
      rw [removeClaim, if_pos hb]
      have hle := count_removeClaim_ids_le rest a u.task_id
      have hc : (claimTaskIds ((b, u) :: rest)).count u.task_id
          = (claimTaskIds rest).count u.task_id + 1 := by
        simp [claimTaskIds, List.count_cons]
      rw [hc]
      omega
    · rw [lookupClaim, if_neg hb] at h
      rw [removeClaim, if_neg hb]
      have := ih h
      simp only [claimTaskIds, List.map_cons, List.count_cons] at *
      omega

theorem lookupClaim_id_mem (l : List (String × Task)) (a : String) (t : Task)
    (h : lookupClaim l a = some t) : t.task_id ∈ claimTaskIds l := by
  induction l with
  | nil => cases h
  | cons p rest ih =>
    obtain ⟨b, u⟩ := p
    by_cases hb : b = a
    · rw [lookupClaim, if_pos hb] at h
      rw [← Option.some.inj h]
      simp [claimTaskIds]
    · rw [lookupClaim, if_neg hb] at h
      exact List.mem_cons_of_mem _ (ih h)

/-- Under distinct claim task identifiers, two different agents never hold
the same task. -/
theorem lookupClaim_ids_distinct (l : List (String × Task))
    (hnd : (claimTaskIds l).Nodup) (a b : String) (ta tb : Task) (hab : a ≠ b)
    (ha : lookupClaim l a = some ta) (hb : lookupClaim l b = some tb) :
    ta.task_id ≠ tb.task_id := by
  induction l with
  | nil => cases ha
  | cons p rest ih =>
    obtain ⟨k, u⟩ := p
    have hnd' : (claimTaskIds rest).Nodup ∧ u.task_id ∉ claimTaskIds rest := by
      simp only [claimTaskIds, List.map_cons, List.nodup_cons] at hnd
      exact ⟨hnd.2, hnd.1⟩
    by_cases hka : k = a
    · rw [lookupClaim, if_pos hka] at ha
      have hu : u = ta := Option.some.inj ha
      subst hu
      have hkb : ¬ k = b := fun hh => hab (hka ▸ hh ▸ rfl)
      rw [lookupClaim, if_neg hkb] at hb
      have := lookupClaim_id_mem rest b tb hb
      intro habs
      exact hnd'.2 (habs ▸ this)
    · rw [lookupClaim, if_neg hka] at ha
      by_cases hkb : k = b
      · rw [lookupClaim, if_pos hkb] at hb
        have hu : u = tb := Option.some.inj hb
        subst hu
        have := lookupClaim_id_mem rest a ta ha
        intro habs
        exact hnd'.2 (habs ▸ this)
      · rw [lookupClaim, if_neg hkb] at hb
        exact ih hnd'.1 ha hb

/-- The inductive invariant of the Task Queue: distinct task identifiers
across both FIFOs and the claim table, distinct claim keys, and all
identifiers bounded by the id counter. -/
def QInv (q : QueueState) : Prop :=
  (∀ i, (allTaskIds q).count i ≤ 1) ∧
  (∀ b, (q.claims.map Prod.fst).count b ≤ 1) ∧
  (∀ i, q.next_task_id < i → (allTaskIds q).count i = 0)

theorem qInv_empty : QInv QueueState.empty := by
  refine ⟨?_, ?_, ?_⟩ <;> intro i <;> simp [QueueState.empty, allTaskIds]

theorem qInv_enq (q : QueueState) (oid : Nat) (tname : String) (role : Role)
    (agent : Option String) (now : Nat) (notes : Option String) (h : QInv q) :
    QInv (enqueueTask q oid tname role agent now notes).1 := by
  obtain ⟨h1, h2, h3⟩ := h
  have hcount : ∀ j, (allTaskIds (enqueueTask q oid tname role agent now notes).1).count j
      = (allTaskIds q).count j + if j = q.next_task_id + 1 then 1 else 0 := by
    intro j
    cases role <;>
      simp [allTaskIds, enqueueTask, setQ, getQ, List.count_append, List.count_cons] <;>
      split_ifs <;> omega
  have hclaims : (enqueueTask q oid tname role agent now notes).1.claims = q.claims := by
    cases role <;> rfl
  have hnext : (enqueueTask q oid tname role agent now notes).1.next_task_id
      = q.next_task_id + 1 := by
    cases role <;> rfl
  refine ⟨?_, ?_, ?_⟩
  · intro i
    rw [hcount i]
    have hh := h1 i
    have hf := h3 (q.next_task_id + 1) (by omega)
    split_ifs with hif
    · subst hif
      omega
    · omega
  · intro b
    rw [hclaims]
    exact h2 b
  · intro i hi
    rw [hnext] at hi
    rw [hcount i]
    have hf := h3 i (by omega)
    split_ifs with hif
    · omega
    · omega

theorem qInv_claim (q : QueueState) (a : String) (role : Role) (h : QInv q) :
    QInv (claimNext q a role).1 := by
  obtain ⟨h1, h2, h3⟩ := h
  cases role
  case customer =>
    rcases hq : q.customerQ with _ | ⟨task, rest⟩
    · have hid : claimNext q a Role.customer = (q, none) := by
        simp [claimNext, getQ, hq]
      rw [hid]
      exact ⟨h1, h2, h3⟩
    · have hstate : (claimNext q a Role.customer).1 =
          { customerQ := rest
            fulfillmentQ := q.fulfillmentQ
            claims := (a, task) :: removeClaim q.claims a
            next_task_id := q.next_task_id } := by
        simp [claimNext, getQ, hq, setQ]
      rw [hstate]
      refine ⟨?_, ?_, ?_⟩
      · intro j
        have hh := h1 j
        have hrm := count_removeClaim_ids_le q.claims a j
        simp only [claimTaskIds] at hrm
        simp only [allTaskIds, hq, List.map_cons, List.count_append, List.count_cons] at hh ⊢
        split_ifs at * <;> omega
      · intro b
        have hks := count_removeClaim_keys_self q.claims a
        have hkl := count_removeClaim_keys_le q.claims a b
        have hb := h2 b
        simp only [List.map_cons, List.count_cons, beq_iff_eq]
        by_cases hba : b = a
        · subst hba
          rw [if_pos rfl]
          omega
        · rw [if_neg (fun hh => hba hh.symm)]
          omega
      · intro j hj
        have hz := h3 j hj
        have hrm := count_removeClaim_ids_le q.claims a j
        simp only [claimTaskIds] at hrm
        simp only [allTaskIds, hq, List.map_cons, List.count_append, List.count_cons] at hz ⊢
        split_ifs at * <;> omega
  case fulfillment =>
    rcases hq : q.fulfillmentQ with _ | ⟨task, rest⟩
    · have hid : claimNext q a Role.fulfillment = (q, none) := by
        simp [claimNext, getQ, hq]
      rw [hid]
      exact ⟨h1, h2, h3⟩
    · have hstate : (claimNext q a Role.fulfillment).1 =
          { customerQ := q.customerQ
            fulfillmentQ := rest
            claims := (a, task) :: removeClaim q.claims a
            next_task_id := q.next_task_id } := by
        simp [claimNext, getQ, hq, setQ]
      rw [hstate]
      refine ⟨?_, ?_, ?_⟩
      · intro j
        have hh := h1 j
        have hrm := count_removeClaim_ids_le q.claims a j
        simp only [claimTaskIds] at hrm
        simp only [allTaskIds, hq, List.map_cons, List.count_append, List.count_cons] at hh ⊢
        split_ifs at * <;> omega
      · intro b
        have hks := count_removeClaim_keys_self q.claims a
        have hkl := count_removeClaim_keys_le q.claims a b
        have hb := h2 b
        simp only [List.map_cons, List.count_cons, beq_iff_eq]
        by_cases hba : b = a
        · subst hba
          rw [if_pos rfl]
          omega
        · rw [if_neg (fun hh => hba hh.symm)]
          omega
      · intro j hj
        have hz := h3 j hj
        have hrm := count_removeClaim_ids_le q.claims a j
        simp only [claimTaskIds] at hrm
        simp only [allTaskIds, hq, List.map_cons, List.count_append, List.count_cons] at hz ⊢
        split_ifs at * <;> omega

theorem qInv_comp (q : QueueState) (a : String) (tid : Nat) (h : QInv q) :
    QInv (completeTask q a tid).1 := by
  obtain ⟨h1, h2, h3⟩ := h
  rcases hc : lookupClaim q.claims a with _ | t
  · have hid : completeTask q a tid = (q, false) := by simp [completeTask, hc]
    rw [hid]
    exact ⟨h1, h2, h3⟩
  · by_cases ht : t.task_id = tid
    · have hstate : (completeTask q a tid).1 = { q with claims := removeClaim q.claims a } := by
        simp [completeTask, hc, ht]
      rw [hstate]
      refine ⟨?_, ?_, ?_⟩
      · intro j
        have hh := h1 j
        have hrm := count_removeClaim_ids_le q.claims a j
        simp only [claimTaskIds] at hrm
        simp only [allTaskIds, List.count_append] at hh ⊢
        omega
      · intro b
        exact le_trans (count_removeClaim_keys_le q.claims a b) (h2 b)
      · intro j hj
        have hz := h3 j hj
        have hrm := count_removeClaim_ids_le q.claims a j
        simp only [claimTaskIds] at hrm
        simp only [allTaskIds, List.count_append] at hz ⊢
        omega
    · have hid : completeTask q a tid = (q, false) := by simp [completeTask, hc, ht]
      rw [hid]
      exact ⟨h1, h2, h3⟩

theorem qInv_rel (q : QueueState) (a : String) (role : Role) (h : QInv q) :
    QInv (releaseTask q a role).1 := by
  obtain ⟨h1, h2, h3⟩ := h
  rcases hc : lookupClaim q.claims a with _ | t
  · have hid : releaseTask q a role = (q, false) := by simp [releaseTask, hc]
    rw [hid]
    exact ⟨h1, h2, h3⟩
  · have hrmlook := count_removeClaim_ids_lookup q.claims a t hc
    simp only [claimTaskIds] at hrmlook
    cases role
    case customer =>
      have hstate : (releaseTask q a Role.customer).1 =
          { customerQ := q.customerQ ++ [t]
            fulfillmentQ := q.fulfillmentQ
            claims := removeClaim q.claims a
            next_task_id := q.next_task_id } := by
        simp [releaseTask, hc, setQ, getQ]
      rw [hstate]
      refine ⟨?_, ?_, ?_⟩
      · intro j
        have hh := h1 j
        have hrm := count_removeClaim_ids_le q.claims a j
        simp only [claimTaskIds] at hrm
        by_cases hj : j = t.task_id
        · subst hj
          simp only [allTaskIds, List.map_append, List.count_append, List.map_cons,
            List.map_nil, List.count_cons, List.count_nil] at hh ⊢
          split_ifs at * <;> omega
        · simp only [allTaskIds, List.map_append, List.count_append, List.map_cons,
            List.map_nil, List.count_cons, List.count_nil, beq_iff_eq] at hh ⊢
          split_ifs at * <;> omega
      · intro b
        exact le_trans (count_removeClaim_keys_le q.claims a b) (h2 b)
      · intro j hj
        have hz := h3 j hj
        have hrm := count_removeClaim_ids_le q.claims a j
        simp only [claimTaskIds] at hrm
        by_cases hjt : j = t.task_id
        · subst hjt
          simp only [allTaskIds, List.count_append] at hz
          omega
        · simp only [allTaskIds, List.map_append, List.count_append, List.map_cons,
            List.map_nil, List.count_cons, List.count_nil, beq_iff_eq] at hz ⊢
          split_ifs at * <;> omega
    case fulfillment =>
      have hstate : (releaseTask q a Role.fulfillment).1 =
          { customerQ := q.customerQ
            fulfillmentQ := q.fulfillmentQ ++ [t]
            claims := removeClaim q.claims a
            next_task_id := q.next_task_id } := by
        simp [releaseTask, hc, setQ, getQ]
      rw [hstate]
      refine ⟨?_, ?_, ?_⟩
      · intro j
        have hh := h1 j
        have hrm := count_removeClaim_ids_le q.claims a j
        simp only [claimTaskIds] at hrm
        by_cases hj : j = t.task_id
        · subst hj
          simp only [allTaskIds, List.map_append, List.count_append, List.map_cons,
            List.map_nil, List.count_cons, List.count_nil] at hh ⊢
          split_ifs at * <;> omega
        · simp only [allTaskIds, List.map_append, List.count_append, List.map_cons,
            List.map_nil, List.count_cons, List.count_nil, beq_iff_eq] at hh ⊢
          split_ifs at * <;> omega
      · intro b
        exact le_trans (count_removeClaim_keys_le q.claims a b) (h2 b)
      · intro j hj
        have hz := h3 j hj
        have hrm := count_removeClaim_ids_le q.claims a j
        simp only [claimTaskIds] at hrm
        by_cases hjt : j = t.task_id
        · subst hjt
          simp only [allTaskIds, List.count_append] at hz
          omega
        · simp only [allTaskIds, List.map_append, List.count_append, List.map_cons,
            List.map_nil, List.count_cons, List.count_nil, beq_iff_eq] at hz ⊢
          split_ifs at * <;> omega

theorem qInv_expire (q : QueueState) (a : String) (h : QInv q) :
    QInv (expireLease q a) := by
  obtain ⟨h1, h2, h3⟩ := h
  refine ⟨?_, ?_, ?_⟩
  · intro j
    have hh := h1 j
    have hrm := count_removeClaim_ids_le q.claims a j
    simp only [claimTaskIds] at hrm
    simp only [allTaskIds, expireLease, List.count_append] at hh ⊢
    omega
  · intro b
    exact le_trans (count_removeClaim_keys_le q.claims a b) (h2 b)
  · intro j hj
    have hz := h3 j hj
    have hrm := count_removeClaim_ids_le q.claims a j
    simp only [claimTaskIds] at hrm
    simp only [allTaskIds, expireLease, List.count_append] at hz ⊢
    omega

theorem qInv_step (q : QueueState) (op : QOp) (h : QInv q) : QInv (applyQOp q op) := by
  cases op with
  | enq oid tname role agent now notes => exact qInv_enq q oid tname role agent now notes h
  | claim a role => exact qInv_claim q a role h
  | comp a tid => exact qInv_comp q a tid h
  | rel a role => exact qInv_rel q a role h
  | expire a => exact qInv_expire q a h

theorem qInv_foldl :
    ∀ (ops : List QOp) (q : QueueState), QInv q → QInv (ops.foldl applyQOp q)
  | [], _, h => h
  | op :: ops, q, h => qInv_foldl ops _ (qInv_step q op h)

theorem qInv_runQ (ops : List QOp) : QInv (runQ ops) :=
  qInv_foldl ops QueueState.empty qInv_empty

/-- Claim C4 (spec-modelled).  Over every sequence of queue operations:
every task is in at most one place (never both queued and claimed, never
claimed twice) and each agent holds at most one claim, so two different
agents never hold the same Task; claimNext on an empty queue returns none
and mutates nothing; and a successful claimNext hands over a task that is
now the caller's claim and no longer queued — the pop and the claim
record are one indivisible step of the model, exactly as the store script
executes them, so no intermediate state is observable. -/
theorem C4_claim_exclusivity :
    ∀ ops : List QOp,
      TaskExclusive (runQ ops) ∧
      (∀ (a b : String) (ta tb : Task), a ≠ b →
        lookupClaim (runQ ops).claims a = some ta →
        lookupClaim (runQ ops).claims b = some tb → ta.task_id ≠ tb.task_id) ∧
      (∀ (a : String) (role : Role), getQ (runQ ops) role = [] →
        claimNext (runQ ops) a role = (runQ ops, none)) ∧
      (∀ (a : String) (role : Role) (q' : QueueState) (t : Task),
        claimNext (runQ ops) a role = (q', some t) →
        lookupClaim q'.claims a = some t ∧
        t.task_id ∉ (getQ q' role).map Task.task_id) := by
  intro ops
  obtain ⟨h1, h2, h3⟩ := qInv_runQ ops
  have hnodupAll : (allTaskIds (runQ ops)).Nodup :=
    List.nodup_iff_count_le_one.mpr h1
  have hnodupKeys : ((runQ ops).claims.map Prod.fst).Nodup :=
    List.nodup_iff_count_le_one.mpr h2
  have hnodupClaims : (claimTaskIds (runQ ops).claims).Nodup := by
    have hh := hnodupAll
    simp only [allTaskIds] at hh
    exact (hh.of_append_right : _)
  refine ⟨⟨hnodupAll, hnodupKeys⟩, ?_, ?_, ?_⟩
  · intro a b ta tb hab ha hb
    exact lookupClaim_ids_distinct _ hnodupClaims a b ta tb hab ha hb
  · intro a role hempty
    cases role <;> simp only [getQ] at hempty <;> simp [claimNext, getQ, hempty]
  · intro a role q' t hclaim
    cases role
    case customer =>
      rcases hq : (runQ ops).customerQ with _ | ⟨task, rest⟩
      · rw [show claimNext (runQ ops) a Role.customer = (runQ ops, none) by
          simp [claimNext, getQ, hq]] at hclaim
        exact absurd (congrArg Prod.snd hclaim) (by simp)
      · have heq : claimNext (runQ ops) a Role.customer =
            ({ customerQ := rest
               fulfillmentQ := (runQ ops).fulfillmentQ
               claims := (a, task) :: removeClaim (runQ ops).claims a
               next_task_id := (runQ ops).next_task_id }, some task) := by
          simp [claimNext, getQ, hq, setQ]
        rw [heq] at hclaim
        injection hclaim with hq' hsome
        have ht : task = t := Option.some.inj hsome
        subst ht
        subst hq'
        refine ⟨by simp [lookupClaim], ?_⟩
        have hnd := hnodupAll
        simp only [allTaskIds, hq, List.map_cons, List.cons_append] at hnd
        rw [List.nodup_cons] at hnd
        intro habs
        apply hnd.1
        simp only [List.mem_append]
        left
        left
        simpa [getQ] using habs
    case fulfillment =>
      rcases hq : (runQ ops).fulfillmentQ with _ | ⟨task, rest⟩
      · rw [show claimNext (runQ ops) a Role.fulfillment = (runQ ops, none) by
          simp [claimNext, getQ, hq]] at hclaim
        exact absurd (congrArg Prod.snd hclaim) (by simp)
      · have heq : claimNext (runQ ops) a Role.fulfillment =
            ({ customerQ := (runQ ops).customerQ
               fulfillmentQ := rest
               claims := (a, task) :: removeClaim (runQ ops).claims a
               next_task_id := (runQ ops).next_task_id }, some task) := by
          simp [claimNext, getQ, hq, setQ]
        rw [heq] at hclaim
        injection hclaim with hq' hsome
        have ht : task = t := Option.some.inj hsome
        subst ht
        subst hq'
        refine ⟨by simp [lookupClaim], ?_⟩
        have hnd := hnodupAll
        simp only [allTaskIds, hq, List.map_cons] at hnd
        have hperm : List.Perm
            (((runQ ops).customerQ.map Task.task_id ++
              task.task_id :: rest.map Task.task_id) ++
              List.map (fun c => c.2.task_id) (runQ ops).claims)
            ((task.task_id :: ((runQ ops).customerQ.map Task.task_id ++
              rest.map Task.task_id)) ++
              List.map (fun c => c.2.task_id) (runQ ops).claims) :=
          List.Perm.append_right _ List.perm_middle
        have hnd2 := hperm.nodup hnd
        rw [List.cons_append, List.nodup_cons] at hnd2
        intro habs
        apply hnd2.1
        simp only [List.mem_append]
        left
        right
        simpa [getQ] using habs

/-- The queue-operation run of the C4 witness: two enqueues, a claim, a
release, a second claim by another agent. -/
def c4ops : List QOp :=
  [.enq 1 "confirm" .fulfillment none 0 none,
   .enq 2 "pack" .fulfillment none 1 none,
   .claim "agent1" .fulfillment,
   .rel "agent1" .fulfillment,
   .claim "agent2" .fulfillment]

/-- Witness for C4 at a concrete run, also exercising the empty-queue
conjunct on the untouched customer queue. -/
theorem C4_claim_exclusivity_witness :
    TaskExclusive (runQ c4ops) ∧
    claimNext (runQ c4ops) "agent3" Role.customer = (runQ c4ops, none) :=
  ⟨(C4_claim_exclusivity c4ops).1,
   (C4_claim_exclusivity c4ops).2.2.1 "agent3" Role.customer (by decide)⟩

end Warehouse
